import Mathlib

/-!
Verification of the product query pipeline and insights aggregator of the
`riaback` backend (a backend-for-frontend over the DummyJSON product catalog).

The TypeScript sources are embedded shallowly:

* `Product`, `ProductListItem`, `ProductFilters`, `ProductSort` mirror the
  domain types of `lib/types/product.ts` (with the `maxStock` criterion used
  by `applyFilters` in the repository file).
* JavaScript numbers are embedded as `ℚ` (prices, ratings) and `Int`
  (stock, page arithmetic); strings as Lean `String`.
* `Array.prototype.filter` / `slice` / `reduce` become `List.filter`,
  `drop`/`take`, `foldl`; the (stable) `Array.prototype.sort` becomes
  `List.mergeSort`; the insertion-ordered JavaScript `Map` becomes an
  association list updated in place.
* `String.prototype.localeCompare` is modelled as a case-insensitive
  primary comparison (lowercased code-point order) with the raw
  code-point order as tiebreaker.
-/

namespace RiaBack

/-- Domain product, from `lib/types/product.ts` (`Product`). -/
structure Product where
  id : Nat
  title : String
  description : String
  price : ℚ
  category : String
  thumbnail : String
  rating : ℚ
  stock : Int
  brand : Option String
  images : Option (List String)
  discountPercentage : Option ℚ
deriving DecidableEq

/-- Raw DummyJSON product DTO, from `lib/types/product.ts` (`ProductDto`). -/
structure ProductDto where
  id : Nat
  title : String
  description : String
  price : ℚ
  category : String
  thumbnail : String
  rating : ℚ
  stock : Int
  brand : Option String
  images : Option (List String)
  discountPercentage : Option ℚ
deriving DecidableEq

/-- `mapDtoToDomain` from `lib/repositories/productRepository.ts`. -/
def mapDtoToDomain (dto : ProductDto) : Product :=
  ⟨dto.id, dto.title, dto.description, dto.price, dto.category, dto.thumbnail,
   dto.rating, dto.stock, dto.brand, dto.images, dto.discountPercentage⟩

/-- Listing projection, from `lib/types/product.ts` (`ProductListItem`). -/
structure ProductListItem where
  id : Nat
  title : String
  price : ℚ
  category : String
  thumbnail : String
  rating : ℚ
  stock : Int
deriving DecidableEq

/-- `toProductListItem` from `lib/repositories/productRepository.ts`. -/
def toProductListItem (p : Product) : ProductListItem :=
  ⟨p.id, p.title, p.price, p.category, p.thumbnail, p.rating, p.stock⟩

/-- Filter criteria (`ProductFilters`), every dimension optional.
Field order follows the destructuring in `applyFilters`. -/
structure ProductFilters where
  search : Option String
  category : Option String
  minPrice : Option ℚ
  maxPrice : Option ℚ
  maxStock : Option Int
deriving DecidableEq

/-- The all-absent criteria set (`{}` in the TypeScript callers). -/
def emptyFilters : ProductFilters := ⟨none, none, none, none, none⟩

/-- JavaScript string truthiness: a string is truthy iff it is non-empty. -/
def jsTruthy (s : String) : Bool := !(s == "")

/-- `String.prototype.includes`: the needle occurs contiguously in the
haystack. -/
def jsIncludes (hay needle : String) : Bool :=
  decide (needle.toList <:+: hay.toList)

/-- The template literal
`` `${product.title} ${product.description} ${product.category}` ``
searched by the `search` criterion. -/
def searchHaystack (p : Product) : String :=
  p.title ++ " " ++ p.description ++ " " ++ p.category

/-- The predicate body of `applyFilters` (the arrow function given to
`products.filter`), with the early `return false` branches rendered as a
cascade of conditionals. -/
def productPasses (f : ProductFilters) (p : Product) : Bool :=
  if (match f.category with
      | some c => jsTruthy c && !(p.category == c)
      | none => false) then false
  else if (match f.minPrice with
      | some m => decide (p.price < m)
      | none => false) then false
  else if (match f.maxPrice with
      | some m => decide (p.price > m)
      | none => false) then false
  else if (match f.maxStock with
      | some m => decide (p.stock > m)
      | none => false) then false
  else if (match f.search with
      | some s => jsTruthy s
      | none => false) then
    jsIncludes (searchHaystack p).toLower ((f.search.getD "").toLower)
  else true

/-- `applyFilters` from `lib/repositories/productRepository.ts`. -/
def applyFilters (products : List Product) (f : ProductFilters) : List Product :=
  products.filter (fun p => productPasses f p)

/-- Specification-side reading of the criteria: all specified predicates
hold (category by exact equality, price window inclusive, stock bound
inclusive, search by case-insensitive substring of the space-joined
title/description/category). -/
def MatchesFilters (f : ProductFilters) (p : Product) : Prop :=
  (∀ c, f.category = some c → p.category = c) ∧
  (∀ m, f.minPrice = some m → m ≤ p.price) ∧
  (∀ m, f.maxPrice = some m → p.price ≤ m) ∧
  (∀ m, f.maxStock = some m → p.stock ≤ m) ∧
  (∀ s, f.search = some s →
    s.toLower.toList <:+: (searchHaystack p).toLower.toList)

lemma productPasses_iff (f : ProductFilters) (p : Product)
    (hc : f.category ≠ some "") (hs : f.search ≠ some "") :
    productPasses f p = true ↔ MatchesFilters f p := by
  obtain ⟨os, oc, omin, omax, ostk⟩ := f
  rcases oc with _ | c <;> rcases os with _ | s <;>
    rcases omin with _ | mn <;> rcases omax with _ | mx <;>
    rcases ostk with _ | st <;>
  · simp_all [productPasses, MatchesFilters, jsTruthy, jsIncludes,
      searchHaystack, not_lt, Option.getD]
    try omega

/-- Sample records mirroring the repository's unit-test fixtures. -/
def pIphone : Product :=
  ⟨1, "iPhone 15 Pro", "Latest iPhone with advanced features", 999,
   "smartphones", "thumb1", 4.8, 50, none, none, none⟩

def pGalaxy : Product :=
  ⟨2, "Samsung Galaxy S24", "Android flagship phone", 799,
   "smartphones", "thumb2", 4.5, 30, none, none, none⟩

def pMacbook : Product :=
  ⟨3, "MacBook Pro 16", "Apple laptop for professionals", 2499,
   "laptops", "thumb3", 4.9, 15, none, none, none⟩

def pDell : Product :=
  ⟨4, "Dell XPS 15", "Windows laptop", 1499,
   "laptops", "thumb4", 4.3, 20, none, none, none⟩

/-- C3: for every record list and criteria set (with the category and search
criteria, when present, non-empty — the empty string is JavaScript-falsy and
treated as absent, see C10), `applyFilters` returns the subsequence of its
input consisting exactly of the records satisfying all specified criteria:
category by exact equality, `minPrice ≤ price`, `price ≤ maxPrice`,
`stock ≤ maxStock`, and case-insensitive substring search over the
space-joined title, description and category. -/
theorem applyFilters_subsequence_spec (ps : List Product) (f : ProductFilters)
    (hc : f.category ≠ some "") (hs : f.search ≠ some "") :
    (applyFilters ps f).Sublist ps ∧
    ∀ p, p ∈ applyFilters ps f ↔ p ∈ ps ∧ MatchesFilters f p := by
  constructor
  · exact List.filter_sublist ps
  · intro p
    rw [applyFilters, List.mem_filter, productPasses_iff f p hc hs]

/-- Witness for C3 at a concrete record list and criteria set. -/
theorem applyFilters_subsequence_spec_witness :
    (applyFilters [pIphone, pGalaxy, pDell]
        ⟨some "phone", some "smartphones", some 700, none, none⟩).Sublist
      [pIphone, pGalaxy, pDell] ∧
    ∀ p, p ∈ applyFilters [pIphone, pGalaxy, pDell]
        ⟨some "phone", some "smartphones", some 700, none, none⟩ ↔
      p ∈ [pIphone, pGalaxy, pDell] ∧
        MatchesFilters ⟨some "phone", some "smartphones", some 700, none, none⟩ p :=
  applyFilters_subsequence_spec [pIphone, pGalaxy, pDell]
    ⟨some "phone", some "smartphones", some 700, none, none⟩
    (by decide) (by decide)

/-- C10: `applyFilters` treats an empty-string criterion as absent: a
criteria set whose `category` (resp. `search`) is the empty string filters
exactly like the same set with that criterion removed, and the criteria set
with both set to `""` and nothing else specified keeps every record. -/
theorem applyFilters_empty_string_absent (ps : List Product) (f : ProductFilters) :
    (f.category = some "" →
      applyFilters ps f
        = applyFilters ps ⟨f.search, none, f.minPrice, f.maxPrice, f.maxStock⟩) ∧
    (f.search = some "" →
      applyFilters ps f
        = applyFilters ps ⟨none, f.category, f.minPrice, f.maxPrice, f.maxStock⟩) ∧
    applyFilters ps ⟨some "", some "", none, none, none⟩ = ps := by
  obtain ⟨os, oc, omin, omax, ostk⟩ := f
  refine ⟨?_, ?_, ?_⟩
  · rintro rfl
    simp [applyFilters, productPasses, jsTruthy]
  · rintro rfl
    simp [applyFilters, productPasses, jsTruthy]
  · simp [applyFilters, productPasses, jsTruthy]

/-- Witness for C10: the all-empty-string criteria keep every record, and an
empty-string category filters like an absent category. -/
theorem applyFilters_empty_string_absent_witness :
    applyFilters [pIphone, pGalaxy] ⟨some "", some "", none, none, none⟩
      = [pIphone, pGalaxy] ∧
    applyFilters [pIphone, pGalaxy] ⟨none, some "", some 800, none, none⟩
      = applyFilters [pIphone, pGalaxy] ⟨none, none, some 800, none, none⟩ :=
  ⟨(applyFilters_empty_string_absent [pIphone, pGalaxy]
      ⟨some "", some "", none, none, none⟩).2.2,
   (applyFilters_empty_string_absent [pIphone, pGalaxy]
      ⟨none, some "", some 800, none, none⟩).1 rfl⟩

/-- The six sort orders (`ProductSort`). -/
inductive ProductSort where
  | price_asc
  | price_desc
  | rating_asc
  | rating_desc
  | title_asc
  | title_desc
deriving DecidableEq

/-- Model of `String.prototype.localeCompare(a, b) <= 0`: primary comparison
on the lowercased strings, raw code-point order as tiebreaker. -/
def localeLe (s t : String) : Bool :=
  decide (s.toLower < t.toLower ∨ (s.toLower = t.toLower ∧ s ≤ t))

/-- `comparator(a, b) <= 0` for the comparator passed to `sorted.sort` in
`applySort`: "a need not come after b". -/
def sortLe (s : ProductSort) (a b : Product) : Bool :=
  match s with
  | .price_asc => decide (a.price ≤ b.price)
  | .price_desc => decide (b.price ≤ a.price)
  | .rating_asc => decide (a.rating ≤ b.rating)
  | .rating_desc => decide (b.rating ≤ a.rating)
  | .title_asc => localeLe a.title b.title
  | .title_desc => localeLe b.title a.title

/-- `applySort` from `lib/repositories/productRepository.ts`:
`Array.prototype.sort` is stable (ES2019), embedded as a stable merge
sort; with no order requested the (copied) input is returned unchanged. -/
def applySort (products : List Product) (sort : Option ProductSort) : List Product :=
  match sort with
  | none => products
  | some s => products.mergeSort (sortLe s)

lemma localeLe_trans (a b c : String) :
    localeLe a b = true → localeLe b c = true → localeLe a c = true := by
  simp only [localeLe, decide_eq_true_eq]
  rintro (h1 | ⟨h1, h1'⟩) (h2 | ⟨h2, h2'⟩)
  · exact Or.inl (lt_trans h1 h2)
  · exact Or.inl (h2 ▸ h1)
  · exact Or.inl (h1 ▸ h2)
  · exact Or.inr ⟨h1.trans h2, le_trans h1' h2'⟩

lemma localeLe_total (a b : String) : (localeLe a b || localeLe b a) = true := by
  simp only [localeLe, Bool.or_eq_true, decide_eq_true_eq]
  rcases lt_trichotomy a.toLower b.toLower with h | h | h
  · exact Or.inl (Or.inl h)
  · rcases le_total a b with h' | h'
    · exact Or.inl (Or.inr ⟨h, h'⟩)
    · exact Or.inr (Or.inr ⟨h.symm, h'⟩)
  · exact Or.inr (Or.inl h)

lemma sortLe_trans (s : ProductSort) (a b c : Product) :
    sortLe s a b = true → sortLe s b c = true → sortLe s a c = true := by
  cases s <;> simp only [sortLe, decide_eq_true_eq] <;>
    first
      | exact fun h1 h2 => le_trans h1 h2
      | exact fun h1 h2 => le_trans h2 h1
      | exact localeLe_trans _ _ _
      | exact fun h1 h2 => localeLe_trans _ _ _ h2 h1

lemma sortLe_total (s : ProductSort) (a b : Product) :
    (sortLe s a b || sortLe s b a) = true := by
  cases s <;> simp only [sortLe, Bool.or_eq_true, decide_eq_true_eq] <;>
    first
      | exact le_total _ _
      | exact (le_total _ _).symm
      | simpa using (Bool.or_eq_true _ _).mp (localeLe_total _ _)

/-- "Sorted by the stated key and direction" for each of the six orders. -/
def SortedBy (s : ProductSort) (l : List Product) : Prop :=
  match s with
  | .price_asc => l.Pairwise (fun a b => a.price ≤ b.price)
  | .price_desc => l.Pairwise (fun a b => b.price ≤ a.price)
  | .rating_asc => l.Pairwise (fun a b => a.rating ≤ b.rating)
  | .rating_desc => l.Pairwise (fun a b => b.rating ≤ a.rating)
  | .title_asc => l.Pairwise (fun a b => localeLe a.title b.title = true)
  | .title_desc => l.Pairwise (fun a b => localeLe b.title a.title = true)

/-- Two records carry the same sort key for the given order. -/
def sameSortKey (s : ProductSort) (a b : Product) : Bool :=
  match s with
  | .price_asc | .price_desc => a.price == b.price
  | .rating_asc | .rating_desc => a.rating == b.rating
  | .title_asc | .title_desc => a.title == b.title

lemma sortLe_of_sameSortKey (s : ProductSort) (x a b : Product)
    (ha : sameSortKey s a x = true) (hb : sameSortKey s b x = true) :
    sortLe s a b = true := by
  cases s <;>
    simp only [sameSortKey, sortLe, beq_iff_eq, decide_eq_true_eq, localeLe] at * <;>
    simp [ha, hb]

/-- Stability of `mergeSort`, filter form: the subsequence of elements in a
fixed `le`-equivalence class is untouched by sorting. -/
lemma filter_mergeSort_eq {α : Type} (le : α → α → Bool)
    (htrans : ∀ a b c, le a b = true → le b c = true → le a c = true)
    (htotal : ∀ a b, (le a b || le b a) = true)
    (p : α → Bool) (hp : ∀ a b, p a = true → p b = true → le a b = true)
    (l : List α) :
    (l.mergeSort le).filter p = l.filter p := by
  have hpair : (l.filter p).Pairwise (fun a b => le a b = true) :=
    List.pairwise_of_forall_mem_list fun a ha b hb =>
      hp a b (List.of_mem_filter ha) (List.of_mem_filter hb)
  have hsub : (l.filter p).Sublist (l.mergeSort le) :=
    List.sublist_mergeSort htrans htotal hpair (List.filter_sublist l)
  have hsub2 : (l.filter p).Sublist ((l.mergeSort le).filter p) := by
    have h2 := hsub.filter p
    simp only [List.filter_filter, Bool.and_self] at h2
    exact h2
  have hlen : ((l.mergeSort le).filter p).length = (l.filter p).length :=
    ((List.mergeSort_perm l le).filter p).length_eq
  exact (hsub2.eq_of_length hlen.symm).symm

/-- C4: for every record list and each of the six sort orders, `applySort`
returns a permutation of its input that is sorted by the stated key and
direction, and the subsequence of records sharing any fixed sort key is
preserved verbatim (stability: equal keys keep their relative input
order). -/
theorem applySort_sorted_stable_perm (ps : List Product) (s : ProductSort) :
    (applySort ps (some s)).Perm ps ∧
    SortedBy s (applySort ps (some s)) ∧
    ∀ x : Product,
      (applySort ps (some s)).filter (fun p => sameSortKey s p x)
        = ps.filter (fun p => sameSortKey s p x) := by
  refine ⟨List.mergeSort_perm ps (sortLe s), ?_, ?_⟩
  · have h := @List.sorted_mergeSort Product (sortLe s)
      (sortLe_trans s) (sortLe_total s) ps
    cases s <;>
      exact h.imp (by simp only [sortLe, decide_eq_true_eq]; exact fun h => h)
  · intro x
    exact filter_mergeSort_eq (sortLe s) (sortLe_trans s) (sortLe_total s)
      (fun p => sameSortKey s p x)
      (fun a b ha hb => sortLe_of_sameSortKey s x a b ha hb) ps

/-- `DEFAULT_PAGE_SIZE` from `lib/config.ts`. -/
def DEFAULT_PAGE_SIZE : Int := 20

/-- `LOW_STOCK_THRESHOLD` from `lib/config.ts`. -/
def LOW_STOCK_THRESHOLD : Int := 10

/-- `PaginatedResult<T>` from `lib/types/product.ts`. -/
structure PaginatedResult (α : Type) where
  items : List α
  total : Nat
  page : Int
  pageSize : Int
  totalPages : Nat
deriving DecidableEq

/-- `GetProductsOptions`: every field optional; `none` models an absent
option (destructuring defaults are applied inside `getProductsPaginated`). -/
structure GetProductsOptions where
  filters : Option ProductFilters
  sort : Option ProductSort
  page : Option Int
  pageSize : Option Int
deriving DecidableEq

/-- `getProductsPaginated` from `lib/repositories/productRepository.ts`,
with the already-fetched catalog snapshot passed in for `getAllProducts()`.
`Math.ceil(total / safePageSize)` over positive `safePageSize` is the
rounding-up natural division. -/
def getProductsPaginated (allProducts : List Product)
    (options : GetProductsOptions) : PaginatedResult ProductListItem :=
  let filters := options.filters.getD emptyFilters
  let page := options.page.getD 1
  let pageSize := options.pageSize.getD DEFAULT_PAGE_SIZE
  let filtered := applyFilters allProducts filters
  let sorted := applySort filtered options.sort
  let safePageSize := if pageSize > 0 then pageSize else DEFAULT_PAGE_SIZE
  let total := sorted.length
  let totalPages := max 1 ((total + safePageSize.toNat - 1) / safePageSize.toNat)
  let clampedPage := min (max page 1) (totalPages : Int)
  let start := (clampedPage - 1).toNat * safePageSize.toNat
  let pageItems := ((sorted.drop start).take safePageSize.toNat).map toProductListItem
  ⟨pageItems, total, clampedPage, safePageSize, totalPages⟩

lemma applySort_nil (s : Option ProductSort) : applySort [] s = [] := by
  cases s <;> simp [applySort]

lemma applySort_length (ps : List Product) (s : Option ProductSort) :
    (applySort ps s).length = ps.length := by
  cases s with
  | none => rfl
  | some s => exact List.length_mergeSort ps

/-- C5: pagination never fails. For every record set and options (page and
page size possibly absent, non-positive or out of range): `totalPages ≥ 1`,
the resolved page is clamped into `[1, totalPages]`, an absent or
non-positive page size is replaced by the default 20, and the empty record
set yields `totalPages = 1` with an empty items list. -/
theorem getProductsPaginated_invariants (ps : List Product)
    (opts : GetProductsOptions) :
    1 ≤ (getProductsPaginated ps opts).totalPages ∧
    1 ≤ (getProductsPaginated ps opts).page ∧
    (getProductsPaginated ps opts).page
      ≤ ((getProductsPaginated ps opts).totalPages : Int) ∧
    (∀ n : Int, opts.pageSize = some n → n ≤ 0 →
      (getProductsPaginated ps opts).pageSize = 20) ∧
    (opts.pageSize = none → (getProductsPaginated ps opts).pageSize = 20) ∧
    (ps = [] → (getProductsPaginated ps opts).totalPages = 1 ∧
      (getProductsPaginated ps opts).items = []) := by
  refine ⟨?_, ?_, ?_, ?_, ?_, ?_⟩
  · exact le_max_left 1 _
  · simp only [getProductsPaginated]
    exact le_min (le_max_right _ 1) (by exact_mod_cast le_max_left 1 _)
  · simp only [getProductsPaginated]
    exact min_le_right _ _
  · intro n hn hnpos
    simp only [getProductsPaginated, hn, Option.getD_some]
    have : ¬ n > 0 := by omega
    simp [this, DEFAULT_PAGE_SIZE]
  · intro hn
    simp only [getProductsPaginated, hn, Option.getD_none]
    simp [DEFAULT_PAGE_SIZE]
  · rintro rfl
    have hfilt : applyFilters [] (opts.filters.getD emptyFilters) = [] := rfl
    simp only [getProductsPaginated, hfilt, applySort_nil, List.length_nil]
    have hk : 0 < (if opts.pageSize.getD DEFAULT_PAGE_SIZE > 0
        then opts.pageSize.getD DEFAULT_PAGE_SIZE else DEFAULT_PAGE_SIZE).toNat := by
      split
      · next h => omega
      · decide
    constructor
    · rw [Nat.div_eq_of_lt (by omega)]
      simp
    · simp

/-- Witness for C5 at the empty record set with a negative page and a zero
page size. -/
theorem getProductsPaginated_invariants_witness :
    1 ≤ (getProductsPaginated [] ⟨none, none, some (-3), some 0⟩).totalPages ∧
    1 ≤ (getProductsPaginated [] ⟨none, none, some (-3), some 0⟩).page ∧
    (getProductsPaginated [] ⟨none, none, some (-3), some 0⟩).page
      ≤ ((getProductsPaginated [] ⟨none, none, some (-3), some 0⟩).totalPages : Int) ∧
    (∀ n : Int, (GetProductsOptions.mk none none (some (-3)) (some 0)).pageSize = some n →
      n ≤ 0 → (getProductsPaginated [] ⟨none, none, some (-3), some 0⟩).pageSize = 20) ∧
    ((GetProductsOptions.mk none none (some (-3)) (some 0)).pageSize = none →
      (getProductsPaginated [] ⟨none, none, some (-3), some 0⟩).pageSize = 20) ∧
    (([] : List Product) = [] →
      (getProductsPaginated [] ⟨none, none, some (-3), some 0⟩).totalPages = 1 ∧
      (getProductsPaginated [] ⟨none, none, some (-3), some 0⟩).items = []) :=
  getProductsPaginated_invariants [] ⟨none, none, some (-3), some 0⟩

/-- C6: `getProductsPaginated` composes filter, then sort, then pagination in
that fixed order: the returned `total` is the post-filter, pre-pagination
record count, identical for all requested pages and page sizes, and the
returned items are a projected contiguous window of the sorted filtered
sequence. -/
theorem getProductsPaginated_total_spec (ps : List Product)
    (f : ProductFilters) (s : Option ProductSort)
    (page page2 pageSize pageSize2 : Option Int) :
    (getProductsPaginated ps ⟨some f, s, page, pageSize⟩).total
      = (applyFilters ps f).length ∧
    (getProductsPaginated ps ⟨some f, s, page, pageSize⟩).total
      = (getProductsPaginated ps ⟨some f, s, page2, pageSize2⟩).total ∧
    ∃ start len,
      (getProductsPaginated ps ⟨some f, s, page, pageSize⟩).items
        = (((applySort (applyFilters ps f) s).drop start).take len).map
            toProductListItem := by
  refine ⟨?_, ?_, ?_⟩
  · simp only [getProductsPaginated, Option.getD_some]
    exact applySort_length _ _
  · simp only [getProductsPaginated, Option.getD_some]
  · exact ⟨_, _, rfl⟩

/-- `{ name, count }` as returned by `computeMostCommonCategory`. -/
structure CategoryCount where
  name : String
  count : Nat
deriving DecidableEq

/-- One entry of `stockByCategory`. -/
structure StockByCategoryEntry where
  category : String
  totalStock : Int
deriving DecidableEq

/-- `ProductsInsights`, the shape returned by `getProductsInsights` in
`lib/services/productInsightsService.ts`. -/
structure ProductsInsights where
  averagePriceGlobal : ℚ
  averageRatingGlobal : ℚ
  averageStockGlobal : ℚ
  totalProducts : Nat
  totalStock : Int
  mostCommonCategory : Option CategoryCount
  lowStockCount : Nat
  topRatedProducts : List ProductListItem
  stockByCategory : List StockByCategoryEntry
deriving DecidableEq

/-- `computeAveragePrice`: guarded arithmetic mean (0 on the empty set). -/
def computeAveragePrice (ps : List Product) : ℚ :=
  if ps.length = 0 then 0
  else (ps.foldl (fun acc p => acc + p.price) 0) / ps.length

/-- `computeAverageRating`. -/
def computeAverageRating (ps : List Product) : ℚ :=
  if ps.length = 0 then 0
  else (ps.foldl (fun acc p => acc + p.rating) 0) / ps.length

/-- `computeAverageStock`. -/
def computeAverageStock (ps : List Product) : ℚ :=
  if ps.length = 0 then 0
  else ((ps.foldl (fun acc p => acc + p.stock) 0 : Int) : ℚ) / ps.length

/-- `computeTotalStock`. -/
def computeTotalStock (ps : List Product) : Int :=
  ps.foldl (fun acc p => acc + p.stock) 0

/-- `counts.set(category, (counts.get(category) ?? 0) + 1)` on an
insertion-ordered map: increment the existing entry in place, or append a
fresh entry at the end. -/
def bumpCount : List (String × Nat) → String → List (String × Nat)
  | [], c => [(c, 1)]
  | (k, n) :: rest, c =>
      if k = c then (k, n + 1) :: rest else (k, n) :: bumpCount rest c

/-- The `counts` map of `computeMostCommonCategory` after the first loop,
in insertion (first-seen) order. -/
def categoryCounts (ps : List Product) : List (String × Nat) :=
  ps.foldl (fun m p => bumpCount m p.category) []

/-- One step of the `count > maxCount` scan of `computeMostCommonCategory`. -/
def maxLoopStep (acc : Option String × Nat) (e : String × Nat) :
    Option String × Nat :=
  if e.2 > acc.2 then (some e.1, e.2) else acc

/-- `computeMostCommonCategory`: count by category in first-seen order, keep
the first entry that strictly exceeds the running maximum, and return `null`
when `maxCategory` is JavaScript-falsy (absent or the empty string). -/
def computeMostCommonCategory (ps : List Product) : Option CategoryCount :=
  if ps.length = 0 then none
  else
    match (categoryCounts ps).foldl maxLoopStep (none, 0) with
    | (none, _) => none
    | (some c, n) => if c = "" then none else some ⟨c, n⟩

/-- `computeLowStockCount` (strict `<` against the threshold). -/
def computeLowStockCount (ps : List Product) (threshold : Int) : Nat :=
  (ps.filter (fun p => decide (p.stock < threshold))).length

/-- `computeTopRatedProducts`: stable sort by rating descending, take the
first `limit`, project. -/
def computeTopRatedProducts (ps : List Product) (limit : Nat) :
    List ProductListItem :=
  ((ps.mergeSort (fun a b => decide (b.rating ≤ a.rating))).take limit).map
    toProductListItem

/-- `totals.set(category, (totals.get(category) ?? 0) + stock)` on an
insertion-ordered map. -/
def bumpStock : List (String × Int) → String → Int → List (String × Int)
  | [], c, st => [(c, st)]
  | (k, n) :: rest, c, st =>
      if k = c then (k, n + st) :: rest else (k, n) :: bumpStock rest c st

/-- `computeStockByCategory`. -/
def computeStockByCategory (ps : List Product) : List StockByCategoryEntry :=
  (ps.foldl (fun m p => bumpStock m p.category p.stock) []).map
    (fun e => ⟨e.1, e.2⟩)

/-- `getProductsForInsights` from `lib/repositories/productRepository.ts`,
with the fetched catalog snapshot passed in. -/
def getProductsForInsights (records : List Product) (filters : ProductFilters) :
    List Product :=
  applyFilters records filters

/-- The insights snapshot as a pure function of a record population
(the body of `getProductsInsights` after the fetch+filter step). -/
def computeInsightsOf (products : List Product) : ProductsInsights :=
  ⟨computeAveragePrice products, computeAverageRating products,
   computeAverageStock products, products.length, computeTotalStock products,
   computeMostCommonCategory products,
   computeLowStockCount products LOW_STOCK_THRESHOLD,
   computeTopRatedProducts products 5, computeStockByCategory products⟩

/-- `getProductsInsights` from `lib/services/productInsightsService.ts`: it
obtains its population through `getProductsForInsights` and aggregates it. -/
def getProductsInsights (records : List Product) (filters : ProductFilters) :
    ProductsInsights :=
  let products := getProductsForInsights records filters
  ⟨computeAveragePrice products, computeAverageRating products,
   computeAverageStock products, products.length, computeTotalStock products,
   computeMostCommonCategory products,
   computeLowStockCount products LOW_STOCK_THRESHOLD,
   computeTopRatedProducts products 5, computeStockByCategory products⟩

/-- C1: the population over which `getProductsInsights` computes its
snapshot is exactly `applyFilters(records, F)` — the very filter the listing
operation applies — so for any page/pageSize the listing's pre-pagination
`total` equals the insights' `totalProducts`. -/
theorem insights_population_refines_listing_filter (records : List Product)
    (f : ProductFilters) (s : Option ProductSort) (page pageSize : Option Int) :
    getProductsForInsights records f = applyFilters records f ∧
    getProductsInsights records f = computeInsightsOf (applyFilters records f) ∧
    (getProductsInsights records f).totalProducts
      = (getProductsPaginated records ⟨some f, s, page, pageSize⟩).total := by
  refine ⟨rfl, rfl, ?_⟩
  simp only [getProductsInsights, getProductsForInsights, getProductsPaginated,
    Option.getD_some]
  exact (applySort_length _ _).symm

/-- C8: the low-stock count is the number of records with stock strictly
below the fixed threshold 10; a record whose stock is exactly 10 leaves the
count unchanged. -/
theorem lowStockCount_strict_threshold (ps : List Product) (p : Product) :
    computeLowStockCount ps LOW_STOCK_THRESHOLD
      = (ps.filter (fun q => decide (q.stock < 10))).length ∧
    (p.stock = 10 →
      computeLowStockCount (p :: ps) LOW_STOCK_THRESHOLD
        = computeLowStockCount ps LOW_STOCK_THRESHOLD) := by
  constructor
  · rfl
  · intro hp
    simp [computeLowStockCount, LOW_STOCK_THRESHOLD, hp]

/-- Witness for C8: a boundary record with stock exactly 10 is not counted. -/
theorem lowStockCount_strict_threshold_witness :
    computeLowStockCount [pIphone, pGalaxy] LOW_STOCK_THRESHOLD
      = (([pIphone, pGalaxy] : List Product).filter
          (fun q => decide (q.stock < 10))).length ∧
    computeLowStockCount [⟨9, "b", "b", 1, "c", "t", 1, 10, none, none, none⟩,
        pIphone, pGalaxy] LOW_STOCK_THRESHOLD
      = computeLowStockCount [pIphone, pGalaxy] LOW_STOCK_THRESHOLD :=
  ⟨(lowStockCount_strict_threshold [pIphone, pGalaxy] pIphone).1,
   (lowStockCount_strict_threshold [pIphone, pGalaxy]
      ⟨9, "b", "b", 1, "c", "t", 1, 10, none, none, none⟩).2 rfl⟩

/-- C9: insights over the empty record set: averages exactly 0, total stock
0, no most-common category, low-stock count 0, empty top-rated and
stock-by-category lists. -/
theorem insights_empty_set (f : ProductFilters) :
    getProductsInsights [] f = ⟨0, 0, 0, 0, 0, none, 0, [], []⟩ := by
  have hfilt : getProductsForInsights [] f = [] := rfl
  simp [getProductsInsights, hfilt, computeAveragePrice, computeAverageRating,
    computeAverageStock, computeTotalStock, computeMostCommonCategory,
    computeLowStockCount, computeTopRatedProducts, computeStockByCategory,
    categoryCounts]

/-- Possible behaviors of the upstream DummyJSON call for one request:
success, the upstream reporting the record absent (HTTP 404), or a
transport failure (timeout, network error, other non-success status). -/
inductive UpstreamOutcome where
  | ok (dto : ProductDto)
  | notFound
  | timeout
  | networkError (msg : String)
  | errorStatus (status : Int)
deriving DecidableEq

/-- The `HttpError` of `lib/utils/http.ts` (status + message). -/
structure HttpErrorModel where
  status : Int
  message : String
deriving DecidableEq

/-- `fetchJson` from `lib/utils/http.ts`: a non-ok response throws
`HttpError(status)` (404 when the upstream reports the record absent), an
abort becomes `HttpError(408)`, a network error becomes `HttpError(502)`. -/
def fetchJson (outcome : UpstreamOutcome) : Except HttpErrorModel ProductDto :=
  match outcome with
  | .ok dto => .ok dto
  | .notFound => .error ⟨404, "Request failed with status 404"⟩
  | .timeout => .error ⟨408, "Request to external API timed out"⟩
  | .networkError msg =>
      .error ⟨502, "Network error while calling external API: " ++ msg⟩
  | .errorStatus st => .error ⟨st, "Request failed with status"⟩

/-- `fetchProductByIdFromDummyJson` from `lib/services/dummyjsonClient.ts`,
parameterized by the upstream behavior for each id. -/
def fetchProductByIdFromDummyJson (upstream : Nat → UpstreamOutcome)
    (id : Nat) : Except HttpErrorModel ProductDto :=
  fetchJson (upstream id)

/-- `getProductById` from `lib/repositories/productRepository.ts`:
`.catch(() => null)` maps every rejection — whatever its status — to
`null`. -/
def getProductById (upstream : Nat → UpstreamOutcome) (id : Nat) :
    Option Product :=
  match fetchProductByIdFromDummyJson upstream id with
  | .ok dto => some (mapDtoToDomain dto)
  | .error _ => none

/-- C2 (code bug): `getProductById` collapses every upstream transport
failure into the not-found result. A timeout, a network error, an upstream
500 and a genuine upstream 404 all yield `none`, so the not-found outcome is
not distinguishable from a transport failure (the 502 branch of the
`/api/products/:id` handler is unreachable). -/
theorem getProductById_collapses_transport_failures :
    getProductById (fun _ => .timeout) 1 = none ∧
    getProductById (fun _ => .networkError "connection reset") 1 = none ∧
    getProductById (fun _ => .errorStatus 500) 1 = none ∧
    getProductById (fun _ => .notFound) 1 = none :=
  ⟨rfl, rfl, rfl, rfl⟩

/-- A record whose category is the empty string (the data model allows
categories of any length). -/
def pNoCategory : Product :=
  ⟨7, "untitled", "record without category", 1, "", "t", 1, 3, none, none, none⟩

/-- C7 counterexample: on the non-empty list `[pNoCategory]` the category
`""` occurs with the strictly greatest count 1, yet
`computeMostCommonCategory` returns `none` rather than `{name := "",
count := 1}`, because `if (!maxCategory)` also treats the empty-string
winner as JavaScript-falsy. -/
theorem mostCommonCategory_empty_string_counterexample :
    computeMostCommonCategory [pNoCategory] = none ∧
    computeMostCommonCategory [pNoCategory] ≠ some ⟨"", 1⟩ := by
  decide

/-- Number of records of a given category (specification side of the
most-common-category count). -/
def categoryCount (ps : List Product) (c : String) : Nat :=
  (ps.filter (fun p => p.category == c)).length

/-- Remove every entry with the given key from an association list. -/
def removeKey (m : List (String × Nat)) (c : String) : List (String × Nat) :=
  m.filter (fun e => !(e.1 == c))

/-- Canonical first-seen-ordered count list of a list of category names. -/
def canon : List String → List (String × Nat)
  | [] => []
  | c :: cs => (c, cs.count c + 1) :: removeKey (canon cs) c

lemma removeKey_bumpCount_self (m : List (String × Nat)) (c : String) :
    removeKey (bumpCount m c) c = removeKey m c := by
  induction m with
  | nil => simp [bumpCount, removeKey]
  | cons e rest ih =>
    obtain ⟨k, n⟩ := e
    simp only [removeKey] at ih ⊢
    by_cases h : k = c
    · subst h
      simp [bumpCount, List.filter_cons]
    · simp [bumpCount, h, List.filter_cons, ih]

lemma removeKey_bumpCount_ne (m : List (String × Nat)) (c d : String)
    (hcd : c ≠ d) :
    removeKey (bumpCount m c) d = bumpCount (removeKey m d) c := by
  induction m with
  | nil => simp [bumpCount, removeKey, hcd]
  | cons e rest ih =>
    obtain ⟨k, n⟩ := e
    simp only [removeKey] at ih ⊢
    by_cases hkc : k = c
    · subst hkc
      simp [bumpCount, List.filter_cons, hcd, Ne.symm hcd]
    · by_cases hkd : k = d
      · subst hkd
        simp [bumpCount, hkc, List.filter_cons, ih]
      · simp [bumpCount, hkc, hkd, List.filter_cons, ih]

lemma canon_append (cs : List String) (c : String) :
    canon (cs ++ [c]) = bumpCount (canon cs) c := by
  induction cs with
  | nil => simp [canon, bumpCount, removeKey]
  | cons d cs ih =>
    by_cases hdc : d = c
    · subst hdc
      rw [List.cons_append, canon, ih, removeKey_bumpCount_self, canon,
        bumpCount, if_pos rfl]
      simp [List.count_append]
    · have hcd : c ≠ d := fun h => hdc h.symm
      rw [List.cons_append, canon, ih, removeKey_bumpCount_ne _ _ _ hcd, canon,
        bumpCount, if_neg hdc]
      simp [List.count_append, List.count_singleton, hcd]

lemma categoryCounts_eq_canon (ps : List Product) :
    categoryCounts ps = canon (ps.map Product.category) := by
  have h : categoryCounts ps = (ps.map Product.category).foldl bumpCount [] := by
    simp [categoryCounts, List.foldl_map]
  rw [h]
  generalize ps.map Product.category = cs
  induction cs using List.reverseRecOn with
  | nil => rfl
  | append_singleton cs c ih => rw [List.foldl_append, ih, canon_append]; rfl

lemma mem_canon_count {cs : List String} {e : String × Nat}
    (h : e ∈ canon cs) : e.2 = cs.count e.1 ∧ e.1 ∈ cs := by
  induction cs generalizing e with
  | nil => simp [canon] at h
  | cons c cs ih =>
    rw [canon] at h
    rcases List.mem_cons.mp h with rfl | hmem
    · exact ⟨by simp, by simp⟩
    · have hne : e.1 ≠ c := by
        have := List.of_mem_filter hmem
        simpa using this
      have hin : e ∈ canon cs := List.mem_of_mem_filter hmem
      obtain ⟨h1, h2⟩ := ih hin
      refine ⟨?_, List.mem_cons_of_mem _ h2⟩
      rw [List.count_cons_of_ne hne]
      exact h1

lemma mem_canon_of_mem {cs : List String} {k : String} (h : k ∈ cs) :
    (k, cs.count k) ∈ canon cs := by
  induction cs with
  | nil => simp at h
  | cons c cs ih =>
    by_cases hkc : k = c
    · subst hkc
      rw [canon, List.count_cons_self]
      exact List.mem_cons_self _ _
    · have hk : k ∈ cs := by
        rcases List.mem_cons.mp h with h | h
        · exact absurd h hkc
        · exact h
      have hmem := ih hk
      rw [canon, List.count_cons_of_ne hkc]
      exact List.mem_cons_of_mem _
        (List.mem_filter.mpr ⟨hmem, by simpa using hkc⟩)

lemma canon_pairwise (cs : List String) :
    (canon cs).Pairwise (fun e₁ e₂ => cs.indexOf e₁.1 < cs.indexOf e₂.1) := by
  induction cs with
  | nil => simp [canon]
  | cons c cs ih =>
    rw [canon, List.pairwise_cons]
    constructor
    · intro e he
      have hne : e.1 ≠ c := by
        have := List.of_mem_filter he
        simpa using this
      rw [List.indexOf_cons_self, List.indexOf_cons_ne _ hne.symm]
      exact Nat.succ_pos _
    · have hsub : (removeKey (canon cs) c).Pairwise
          (fun e₁ e₂ => cs.indexOf e₁.1 < cs.indexOf e₂.1) :=
        ih.sublist (List.filter_sublist _)
      refine hsub.imp_of_mem ?_
      intro e₁ e₂ h₁ h₂ hlt
      have hne₁ : e₁.1 ≠ c := by
        have := List.of_mem_filter h₁
        simpa using this
      have hne₂ : e₂.1 ≠ c := by
        have := List.of_mem_filter h₂
        simpa using this
      rw [List.indexOf_cons_ne _ hne₁.symm, List.indexOf_cons_ne _ hne₂.symm]
      exact Nat.succ_lt_succ hlt

lemma foldl_maxLoopStep_spec (l : List (String × Nat))
    (acc : Option String × Nat) :
    ((∀ e ∈ l, e.2 ≤ acc.2) ∧ l.foldl maxLoopStep acc = acc) ∨
    ∃ l₁ w l₂, l = l₁ ++ w :: l₂ ∧
      l.foldl maxLoopStep acc = (some w.1, w.2) ∧
      acc.2 < w.2 ∧
      (∀ e ∈ l, e.2 ≤ w.2) ∧
      (∀ e ∈ l₁, e.2 < w.2) := by
  induction l generalizing acc with
  | nil => exact Or.inl ⟨by simp, rfl⟩
  | cons e l ih =>
    by_cases h : e.2 > acc.2
    · have hstep : maxLoopStep acc e = (some e.1, e.2) := if_pos h
      rcases ih (some e.1, e.2) with ⟨hall, heq⟩ | ⟨l₁, w, l₂, hsplit, heq, hacc, hmax, hfirst⟩
      · refine Or.inr ⟨[], e, l, rfl, ?_, h, ?_, by simp⟩
        · rw [List.foldl_cons, hstep, heq]
        · intro f hf
          rcases List.mem_cons.mp hf with rfl | hf
          · exact le_refl _
          · exact hall f hf
      · refine Or.inr ⟨e :: l₁, w, l₂, by rw [hsplit, List.cons_append], ?_, ?_, ?_, ?_⟩
        · rw [List.foldl_cons, hstep, heq]
        · exact lt_trans h hacc
        · intro f hf
          rcases List.mem_cons.mp hf with rfl | hf
          · exact le_of_lt hacc
          · exact hmax f hf
        · intro f hf
          rcases List.mem_cons.mp hf with rfl | hf
          · exact hacc
          · exact hfirst f hf
    · have hstep : maxLoopStep acc e = acc := if_neg h
      have hle : e.2 ≤ acc.2 := Nat.le_of_not_lt h
      rcases ih acc with ⟨hall, heq⟩ | ⟨l₁, w, l₂, hsplit, heq, hacc, hmax, hfirst⟩
      · refine Or.inl ⟨?_, by rw [List.foldl_cons, hstep, heq]⟩
        intro f hf
        rcases List.mem_cons.mp hf with rfl | hf
        · exact hle
        · exact hall f hf
      · refine Or.inr ⟨e :: l₁, w, l₂, by rw [hsplit, List.cons_append], ?_, hacc, ?_, ?_⟩
        · rw [List.foldl_cons, hstep, heq]
        · intro f hf
          rcases List.mem_cons.mp hf with rfl | hf
          · exact le_of_lt (lt_of_le_of_lt hle hacc)
          · exact hmax f hf
        · intro f hf
          rcases List.mem_cons.mp hf with rfl | hf
          · exact lt_of_le_of_lt hle hacc
          · exact hfirst f hf

lemma count_map_category (ps : List Product) (k : String) :
    (ps.map Product.category).count k = categoryCount ps k := by
  simp only [List.count_eq_countP, List.countP_map, categoryCount,
    ← List.countP_eq_length_filter]
  rfl

/-- C7 (amended): on the empty record list the most-common-category is
`none`; on a non-empty record list all of whose categories are non-empty
strings (when the winning category is the empty string the code returns
`none` instead — see the counterexample), the computation returns a
category of maximal occurrence count, and the winner is the first category
in first-seen input order to reach that count: any other category attaining
the same count first appears no earlier. -/
theorem mostCommonCategory_amended :
    computeMostCommonCategory ([] : List Product) = none ∧
    ∀ ps : List Product, ps ≠ [] → (∀ p ∈ ps, p.category ≠ "") →
    ∃ c n, computeMostCommonCategory ps = some ⟨c, n⟩ ∧
      (∃ p ∈ ps, p.category = c) ∧
      n = categoryCount ps c ∧
      (∀ p ∈ ps, categoryCount ps p.category ≤ n) ∧
      (∀ p ∈ ps, categoryCount ps p.category = n →
        (ps.map Product.category).indexOf c
          ≤ (ps.map Product.category).indexOf p.category) := by
  refine ⟨rfl, ?_⟩
  intro ps hne hcat
  have hlen : ¬ ps.length = 0 := by simpa [List.length_eq_zero] using hne
  rcases foldl_maxLoopStep_spec (canon (ps.map Product.category)) (none, 0) with
    ⟨hall, heq⟩ | ⟨l₁, w, l₂, hsplit, heq, hacc, hmax, hfirst⟩
  · exfalso
    obtain ⟨p, hp⟩ := List.exists_mem_of_ne_nil ps hne
    have hmem : (p.category, (ps.map Product.category).count p.category)
        ∈ canon (ps.map Product.category) :=
      mem_canon_of_mem (List.mem_map_of_mem _ hp)
    have hpos : 0 < (ps.map Product.category).count p.category :=
      List.count_pos_iff.mpr (List.mem_map_of_mem _ hp)
    have hle := hall _ hmem
    simp only at hle
    omega
  · have hwmem : w ∈ canon (ps.map Product.category) := by
      rw [hsplit]
      exact List.mem_append_right _ (List.mem_cons_self _ _)
    obtain ⟨hwcount, hwin⟩ := mem_canon_count hwmem
    obtain ⟨p₀, hp₀, hp₀c⟩ := List.mem_map.mp hwin
    have hwne : ¬ w.1 = "" := by
      rw [← hp₀c]
      exact hcat p₀ hp₀
    have hcompute : computeMostCommonCategory ps = some ⟨w.1, w.2⟩ := by
      rw [computeMostCommonCategory, if_neg hlen, categoryCounts_eq_canon, heq]
      simp [hwne]
    refine ⟨w.1, w.2, hcompute, ⟨p₀, hp₀, hp₀c⟩, ?_, ?_, ?_⟩
    · rw [hwcount, count_map_category]
    · intro p hp
      have hmem : (p.category, (ps.map Product.category).count p.category)
          ∈ canon (ps.map Product.category) :=
        mem_canon_of_mem (List.mem_map_of_mem _ hp)
      have hle := hmax _ hmem
      rw [count_map_category] at hle
      exact hle
    · intro p hp hcnt
      by_cases hpc : p.category = w.1
      · rw [hpc]
      · have hmem : (p.category, (ps.map Product.category).count p.category)
            ∈ canon (ps.map Product.category) :=
          mem_canon_of_mem (List.mem_map_of_mem _ hp)
        have hcnt' : (ps.map Product.category).count p.category = w.2 := by
          rw [count_map_category]
          exact hcnt
        rw [hsplit] at hmem
        rcases List.mem_append.mp hmem with hmem | hmem
        · have hstrict := hfirst _ hmem
          simp only [hcnt'] at hstrict
          omega
        · rcases List.mem_cons.mp hmem with hEq | hmem
          · exact absurd (congrArg Prod.fst hEq) hpc
          · have hpw := canon_pairwise (ps.map Product.category)
            rw [hsplit] at hpw
            have h2 := (List.pairwise_append.mp hpw).2.1
            exact le_of_lt (List.rel_of_pairwise_cons h2 hmem)

/-- Witness for C7 (amended) on a three-record list whose most common
category is "smartphones". -/
theorem mostCommonCategory_amended_witness :
    ∃ c n, computeMostCommonCategory [pIphone, pGalaxy, pMacbook] = some ⟨c, n⟩ ∧
      (∃ p ∈ [pIphone, pGalaxy, pMacbook], p.category = c) ∧
      n = categoryCount [pIphone, pGalaxy, pMacbook] c ∧
      (∀ p ∈ [pIphone, pGalaxy, pMacbook],
        categoryCount [pIphone, pGalaxy, pMacbook] p.category ≤ n) ∧
      (∀ p ∈ [pIphone, pGalaxy, pMacbook],
        categoryCount [pIphone, pGalaxy, pMacbook] p.category = n →
        ([pIphone, pGalaxy, pMacbook].map Product.category).indexOf c
          ≤ ([pIphone, pGalaxy, pMacbook].map Product.category).indexOf p.category) :=
  mostCommonCategory_amended.2 [pIphone, pGalaxy, pMacbook] (by decide) (by decide)

end RiaBack
